import Mathlib

/-!
# Scarlet `IO/libcan/can.c`: fragmenting CAN sender and interface binding

A shallow embedding of `InitCan` and `Send` from `src/IO/libcan/can.c`.

* The kernel is a record of system calls over an abstract world state `σ`;
  every call returns its C return value together with the next world.
* The two file-scope variables `s` and `ifindex` are the record `Globals`.
* `int` values are integers kept in `[-2^31, 2^31)`; storing a wider value
  into an `int` goes through `int_of_long` (reduction modulo `2^32`).
* `uint32_t len` is a natural number. The only arithmetic on it is
  `len -= size` with `size ≤ len`, which never wraps.
* The `printf` diagnostics do not influence any value and are left out.
-/

namespace Scarlet

/-- A `uint8_t`. -/
abbrev uint8_t := Fin 256

/-- The `struct can_frame` of `<linux/can.h>`: identifier, data length code and
the 8-byte data buffer (padding bytes carry no information and are omitted). -/
structure can_frame where
  can_id : Nat
  can_dlc : Nat
  data : List uint8_t
deriving DecidableEq

/-- The file-scope variables `int s; int ifindex;`. -/
structure Globals where
  s : Int
  ifindex : Int
deriving DecidableEq

/-- The system calls used by `can.c`, over a world state `σ`.
`sizeof_can_frame` is `sizeof(struct can_frame)`, a constant of `<linux/can.h>`. -/
structure Kernel (σ : Type) where
  sizeof_can_frame : Nat
  /-- Models `socket(PF_CAN, SOCK_RAW, CAN_RAW)`. -/
  socket : σ → Int × σ
  /-- Models `ioctl(fd, SIOCGIFINDEX, &ifr)`: from the descriptor, `ifr.ifr_name` and the
  current content of `ifr.ifr_ifindex` to the return value and the content of
  `ifr.ifr_ifindex` afterwards. -/
  ioctl_SIOCGIFINDEX : σ → Int → String → Int → (Int × Int) × σ
  /-- Models `bind(fd, &addr, sizeof(addr))` with `addr.can_family = AF_CAN` and the given
  `addr.can_ifindex`. -/
  bind : σ → Int → Int → Int × σ
  /-- Models `write(fd, &frame, count)`. -/
  write : σ → Int → can_frame → Nat → Int × σ

/-- Conversion of a wider integer to `int` (two's complement, modulo `2^32`). -/
def int_of_long (x : Int) : Int := (x + 2 ^ 31) % 2 ^ 32 - 2 ^ 31

/-- Conversion of an `int` to `canid_t` (`uint32_t`), as in `frame.can_id = id`. -/
def canid_of_int (id : Int) : Nat := (id % 2 ^ 32).toNat

/-- Conversion of an `int` size to the `uint8_t` field `can_dlc`. -/
def u8_of_size (size : Nat) : Nat := size % 256

/-- Models `memcpy(dst, src, n)` on byte lists: the first `n` bytes of `dst` are replaced by the
first `n` bytes of `src`. When `src` holds fewer than `n` bytes the C call reads out of bounds;
the list version then copies the bytes there are. -/
def memcpy (dst src : List uint8_t) (n : Nat) : List uint8_t :=
  src.take n ++ dst.drop n

/-- Result of `InitCan`: return value, the file-scope variables and the world afterwards. -/
structure InitResult (σ : Type) where
  ret : Int
  globals : Globals
  world : σ

/-- Embedding of `int InitCan(const char *ifname)`. `ifr_ifindex0` is the indeterminate
initial content of the local `ifr.ifr_ifindex`; the `ioctl` writes that field only as the kernel
decides, and its return value is not looked at. The `strcpy` into `ifr.ifr_name` is the passing of
`ifname` to the `ioctl` (names that do not fit the buffer are outside this embedding). -/
def InitCan {σ : Type} (k : Kernel σ) (w : σ) (g : Globals) (ifr_ifindex0 : Int)
    (ifname : String) : InitResult σ :=
  let r := k.socket w
  let g1 : Globals := { g with s := r.1 }
  if r.1 < 0 then
    { ret := -1, globals := g1, world := r.2 }
  else
    let io := k.ioctl_SIOCGIFINDEX r.2 g1.s ifname ifr_ifindex0
    let ifr_ifindex := io.1.2
    let g2 : Globals := { g1 with ifindex := ifr_ifindex }
    let b := k.bind io.2 g2.s ifr_ifindex
    if b.1 < 0 then
      { ret := -2, globals := g2, world := b.2 }
    else
      { ret := 1, globals := g2, world := b.2 }

/-- One executed iteration of the loop of `Send`, as observed at its `write` call: the value of
the local `size` (the byte count given to `memcpy`), the frame handed to `write`, and the value
`write` returned. -/
structure WriteCall where
  size : Nat
  frame : can_frame
  ret : Int
deriving DecidableEq

/-- The variables of `Send` that change in its loop, the world, and the log of `write` calls made
so far (oldest first). `payload` is the memory from the current `payload` pointer onwards. -/
structure SendState (σ : Type) where
  frame : can_frame
  payload : List uint8_t
  len : Nat
  nbytes : Int
  world : σ
  log : List WriteCall

/-- The body of `while(len) { ... }` in `Send`. -/
def Send.body {σ : Type} (k : Kernel σ) (g : Globals) (st : SendState σ) : SendState σ :=
  let size := if st.len < 8 then st.len else 8
  let frame : can_frame :=
    { st.frame with data := memcpy st.frame.data st.payload size, can_dlc := u8_of_size size }
  let wr := k.write st.world g.s frame k.sizeof_can_frame
  { frame := frame
    payload := st.payload.drop size
    len := st.len - size
    nbytes := int_of_long (st.nbytes + wr.1)
    world := wr.2
    log := st.log ++ [{ size := size, frame := frame, ret := wr.1 }] }

/-- The loop `while(len) { ... }` of `Send`. -/
def Send.loop {σ : Type} (k : Kernel σ) (g : Globals) (st : SendState σ) : SendState σ :=
  if st.len = 0 then st else Send.loop k g (Send.body k g st)
termination_by st.len
decreasing_by
  simp only [Send.body]
  split <;> omega

/-- The state of `Send` on reaching its loop: `frame.can_id = id; int nbytes = 0;`, nothing
written yet. -/
def Send.init {σ : Type} (w : σ) (frame0 : can_frame) (id : Int) (payload : List uint8_t)
    (len : Nat) : SendState σ :=
  { frame := { frame0 with can_id := canid_of_int id }, payload := payload, len := len,
    nbytes := 0, world := w, log := [] }

/-- Result of `Send`: return value, the `write` calls it made in order, and the world
afterwards. -/
structure SendResult (σ : Type) where
  ret : Int
  writes : List WriteCall
  world : σ

/-- Embedding of `int Send(int id, uint8_t *payload, uint32_t len)`. `frame0` is the
indeterminate initial content of the local `frame`; `payload` is the memory the pointer
argument refers to. -/
def Send {σ : Type} (k : Kernel σ) (g : Globals) (w : σ) (frame0 : can_frame)
    (id : Int) (payload : List uint8_t) (len : Nat) : SendResult σ :=
  let st := Send.loop k g (Send.init w frame0 id payload len)
  let nbytes := if st.nbytes < 0 then -1 else st.nbytes
  { ret := nbytes, writes := st.log, world := st.world }

/-- The frames emitted by a `Send`, in emission order. -/
def SendResult.frames {σ : Type} (r : SendResult σ) : List can_frame :=
  r.writes.map WriteCall.frame

/-- The values returned by the `write` calls of a `Send`, in call order. -/
def SendResult.rets {σ : Type} (r : SendResult σ) : List Int :=
  r.writes.map WriteCall.ret

/-- The meaningful bytes of a frame: the first `can_dlc` bytes of its data field. -/
def can_frame.payloadBytes (f : can_frame) : List uint8_t :=
  f.data.take f.can_dlc

/-- What a receiver reassembles from a frame sequence: the meaningful bytes of each frame,
concatenated in order. -/
def reassemble (fs : List can_frame) : List uint8_t :=
  (fs.map can_frame.payloadBytes).flatten

/-- A scripted kernel for concrete runs: the world is the list of values the coming `write`
calls return (a `write` beyond the script succeeds with `count`); `socket`, `ioctl` and `bind`
return the given values, and the `ioctl` stores `idx` when it succeeds. -/
def scripted (sock io idx bnd : Int) : Kernel (List Int) where
  sizeof_can_frame := 16
  socket := fun w => (sock, w)
  ioctl_SIOCGIFINDEX := fun w _ _ cur => ((io, if io < 0 then cur else idx), w)
  bind := fun w _ _ => (bnd, w)
  write := fun w _ _ count =>
    match w with
    | [] => ((count : Int), [])
    | r :: rest => (r, rest)

/-- An all-zero frame, used as initial stack content in concrete runs. -/
def zeroFrame : can_frame := { can_id := 0, can_dlc := 0, data := List.replicate 8 0 }

/-- A kernel in which the socket is created as descriptor 3, the interface lookup succeeds with
index 1 and the bind succeeds. -/
def okKernel : Kernel (List Int) := scripted 3 0 1 0

/-- A kernel in which the socket is created as descriptor 3, the interface lookup fails with
`-1` and the bind succeeds with `0`. -/
def lookupFailKernel : Kernel (List Int) := scripted 3 (-1) 1 0

/-- The file-scope variables after a successful `InitCan` under `okKernel`. -/
def okGlobals : Globals := { s := 3, ifindex := 1 }

/-- A payload of 17 bytes `0xAA`. -/
def payload17 : List uint8_t := List.replicate 17 0xAA

/-- A payload of 9 bytes `1, 2, ..., 9`. -/
def payload9 : List uint8_t := [1, 2, 3, 4, 5, 6, 7, 8, 9]

/-- Threads `write(fd, &frame, count)` through a list of frames, oldest first, from world `w`:
the values the calls return and the world after the last call. -/
def Kernel.writeAll {σ : Type} (k : Kernel σ) (fd : Int) (count : Nat) :
    σ → List can_frame → List Int × σ
  | w, [] => ([], w)
  | w, f :: fs =>
    ((k.write w fd f count).1 :: (Kernel.writeAll k fd count (k.write w fd f count).2 fs).1,
      (Kernel.writeAll k fd count (k.write w fd f count).2 fs).2)

/-- The kernel `k` with a counter beside its world that every `write` call increments; all
return values and the effect on the world of `k` are those of `k`. -/
def Kernel.counting {σ : Type} (k : Kernel σ) : Kernel (σ × Nat) where
  sizeof_can_frame := k.sizeof_can_frame
  socket := fun w => ((k.socket w.1).1, ((k.socket w.1).2, w.2))
  ioctl_SIOCGIFINDEX := fun w fd name cur =>
    ((k.ioctl_SIOCGIFINDEX w.1 fd name cur).1, ((k.ioctl_SIOCGIFINDEX w.1 fd name cur).2, w.2))
  bind := fun w fd idx => ((k.bind w.1 fd idx).1, ((k.bind w.1 fd idx).2, w.2))
  write := fun w fd f count => ((k.write w.1 fd f count).1, ((k.write w.1 fd f count).2, w.2 + 1))

/-- A loop state of `Send` with the call counter `n` put beside its world. -/
def SendState.withCount {σ : Type} (st : SendState σ) (n : Nat) : SendState (σ × Nat) :=
  { frame := st.frame, payload := st.payload, len := st.len, nbytes := st.nbytes,
    world := (st.world, n), log := st.log }

/-! ## Arithmetic of `int` -/

theorem int_of_long_add_left (a b : Int) :
    int_of_long (int_of_long a + b) = int_of_long (a + b) := by
  simp only [int_of_long]
  omega

theorem int_of_long_of_fits (a : Int) (lo : -2 ^ 31 ≤ a) (hi : a < 2 ^ 31) :
    int_of_long a = a := by
  simp only [int_of_long]
  omega

/-! ## The loop rule -/

/-- Invariant rule for `while(len)`: a property preserved by the body whenever `len` is nonzero
holds when the loop exits, and the loop exits with `len = 0`. -/
theorem Send.loop_rule {σ : Type} (k : Kernel σ) (g : Globals) (P : SendState σ → Prop)
    (hstep : ∀ st, st.len ≠ 0 → P st → P (Send.body k g st)) :
    ∀ (n : Nat) (st : SendState σ), st.len = n → P st →
      P (Send.loop k g st) ∧ (Send.loop k g st).len = 0 := by
  intro n
  induction n using Nat.strong_induction_on with
  | _ n ih =>
    intro st hn hP
    rw [Send.loop]
    by_cases h0 : st.len = 0
    · rw [if_pos h0]
      exact ⟨hP, h0⟩
    · rw [if_neg h0]
      have hlt : (Send.body k g st).len < n := by
        simp only [Send.body]
        split <;> omega
      exact ih _ hlt _ rfl (hstep st h0 hP)

theorem Send_writes {σ : Type} (k : Kernel σ) (g : Globals) (w : σ) (frame0 : can_frame)
    (id : Int) (payload : List uint8_t) (len : Nat) :
    (Send k g w frame0 id payload len).writes
      = (Send.loop k g (Send.init w frame0 id payload len)).log := rfl

theorem Send_ret {σ : Type} (k : Kernel σ) (g : Globals) (w : σ) (frame0 : can_frame)
    (id : Int) (payload : List uint8_t) (len : Nat) :
    (Send k g w frame0 id payload len).ret
      = if (Send.loop k g (Send.init w frame0 id payload len)).nbytes < 0 then -1
        else (Send.loop k g (Send.init w frame0 id payload len)).nbytes := rfl

/-- Number of `write` calls: one per started group of 8 bytes. -/
theorem Send_writes_length {σ : Type} (k : Kernel σ) (g : Globals) (w : σ) (frame0 : can_frame)
    (id : Int) (payload : List uint8_t) (len : Nat) :
    (Send k g w frame0 id payload len).writes.length = (len + 7) / 8 := by
  rw [Send_writes]
  have h := Send.loop_rule k g
    (fun st => st.log.length + (st.len + 7) / 8 = (len + 7) / 8)
    (by
      intro st h0 hP
      simp only [Send.body, List.length_append, List.length_singleton]
      split <;> omega)
    len (Send.init w frame0 id payload len) rfl (by simp [Send.init])
  obtain ⟨h1, h2⟩ := h
  simp only [h2] at h1
  omega

/-- The value of the local `size` in an iteration with `len ≠ 0` lies in `1..8`, and is stored
unchanged into `can_dlc`. -/
theorem u8_of_size_chunk (len : Nat) :
    u8_of_size (if len < 8 then len else 8) = if len < 8 then len else 8 := by
  simp only [u8_of_size]
  split <;> omega

/-- Every logged `write` call has `size ≤ 8` and `can_dlc = size`. -/
theorem Send_writes_size {σ : Type} (k : Kernel σ) (g : Globals) (w : σ) (frame0 : can_frame)
    (id : Int) (payload : List uint8_t) (len : Nat) :
    ∀ c ∈ (Send k g w frame0 id payload len).writes,
      1 ≤ c.size ∧ c.size ≤ 8 ∧ c.frame.can_dlc = c.size := by
  rw [Send_writes]
  refine (Send.loop_rule k g
    (fun st => ∀ c ∈ st.log, 1 ≤ c.size ∧ c.size ≤ 8 ∧ c.frame.can_dlc = c.size)
    ?_ len (Send.init w frame0 id payload len) rfl (by simp [Send.init])).1
  intro st h0 hP c hc
  simp only [Send.body, List.mem_append, List.mem_singleton] at hc
  rcases hc with hc | hc
  · exact hP c hc
  · subst hc
    simp only [u8_of_size_chunk]
    refine ⟨?_, ?_, trivial⟩ <;> split <;> omega

/-- Every logged frame carries the identifier stored before the loop. -/
theorem Send_writes_can_id {σ : Type} (k : Kernel σ) (g : Globals) (w : σ) (frame0 : can_frame)
    (id : Int) (payload : List uint8_t) (len : Nat) :
    ∀ c ∈ (Send k g w frame0 id payload len).writes, c.frame.can_id = canid_of_int id := by
  rw [Send_writes]
  refine (Send.loop_rule k g
    (fun st => st.frame.can_id = canid_of_int id ∧
      ∀ c ∈ st.log, c.frame.can_id = canid_of_int id)
    ?_ len (Send.init w frame0 id payload len) rfl (by simp [Send.init])).1.2
  intro st h0 hP
  refine ⟨hP.1, ?_⟩
  intro c hc
  simp only [Send.body, List.mem_append, List.mem_singleton] at hc
  rcases hc with hc | hc
  · exact hP.2 c hc
  · subst hc
    exact hP.1

/-- The `can_dlc` values of the logged frames. -/
theorem Send_writes_dlc {σ : Type} (k : Kernel σ) (g : Globals) (w : σ) (frame0 : can_frame)
    (id : Int) (payload : List uint8_t) (len : Nat) :
    (Send k g w frame0 id payload len).writes.map (fun c => c.frame.can_dlc)
      = List.replicate (len / 8) 8 ++ (if len % 8 = 0 then [] else [len % 8]) := by
  rw [Send_writes]
  have h := Send.loop_rule k g
    (fun st => st.log.map (fun c => c.frame.can_dlc)
        ++ (List.replicate (st.len / 8) 8 ++ (if st.len % 8 = 0 then [] else [st.len % 8]))
      = List.replicate (len / 8) 8 ++ (if len % 8 = 0 then [] else [len % 8]))
    (by
      intro st h0 hP
      rw [← hP]
      simp only [Send.body, List.map_append, List.map_cons, List.map_nil, u8_of_size_chunk,
        List.append_assoc]
      congr 1
      by_cases h8 : st.len < 8
      · have e1 : st.len / 8 = 0 := by omega
        have e2 : st.len % 8 = st.len := by omega
        simp [h8, e1, e2, h0]
      · have e1 : st.len / 8 = (st.len - 8) / 8 + 1 := by omega
        have e2 : (st.len - 8) % 8 = st.len % 8 := by omega
        simp only [h8, if_false, e1, e2, List.replicate_succ]
        rfl)
    len (Send.init w frame0 id payload len) rfl (by simp [Send.init])
  obtain ⟨h1, h2⟩ := h
  rw [← h1, h2]
  simp

theorem reassemble_append (xs ys : List can_frame) :
    reassemble (xs ++ ys) = reassemble xs ++ reassemble ys := by
  simp [reassemble]

/-- The meaningful bytes of the frame built in one iteration are the next `size` bytes of the
payload, provided the payload memory holds that many. -/
theorem payloadBytes_chunk (f : can_frame) (payload : List uint8_t) (size : Nat)
    (h : size ≤ payload.length) (h8 : size ≤ 8) :
    can_frame.payloadBytes
        { f with data := memcpy f.data payload size, can_dlc := u8_of_size size }
      = payload.take size := by
  have e : u8_of_size size = size := by simp only [u8_of_size]; omega
  simp only [can_frame.payloadBytes, memcpy, e]
  rw [List.take_append_of_le_length (by simp [h])]
  simp

/-- Reassembling the logged frames gives the first `len` bytes of the payload memory. -/
theorem Send_reassemble_take {σ : Type} (k : Kernel σ) (g : Globals) (w : σ)
    (frame0 : can_frame) (id : Int) (payload : List uint8_t) (len : Nat)
    (hlen : len ≤ payload.length) :
    reassemble (Send k g w frame0 id payload len).frames = payload.take len := by
  rw [SendResult.frames, Send_writes]
  have h := Send.loop_rule k g
    (fun st => st.len ≤ st.payload.length ∧
      reassemble (st.log.map WriteCall.frame) ++ st.payload.take st.len = payload.take len)
    (by
      intro st h0 hP
      obtain ⟨hle, hP⟩ := hP
      have hs : (if st.len < 8 then st.len else 8) ≤ st.len := by split <;> omega
      have hs8 : (if st.len < 8 then st.len else 8) ≤ 8 := by split <;> omega
      refine ⟨?_, ?_⟩
      · simp only [Send.body, List.length_drop]
        omega
      · rw [← hP]
        simp only [Send.body, List.map_append, List.map_cons, List.map_nil, reassemble_append,
          List.append_assoc]
        congr 1
        have hr : ∀ f : can_frame, reassemble [f] = f.payloadBytes := by
          intro f
          simp [reassemble]
        rw [hr, payloadBytes_chunk _ _ _ (le_trans hs hle) hs8]
        generalize (if st.len < 8 then st.len else 8) = size at hs
        obtain ⟨d, hd⟩ : ∃ d, st.len = size + d := ⟨st.len - size, by omega⟩
        rw [hd, Nat.add_sub_cancel_left, List.take_add])
    len (Send.init w frame0 id payload len) rfl (by simp [Send.init, reassemble, hlen])
  obtain ⟨⟨_, h1⟩, h2⟩ := h
  rw [← h1, h2]
  simp

/-- The accumulator `nbytes` after the loop is the sum of all `write` return values, reduced
to `int`. -/
theorem Send_nbytes {σ : Type} (k : Kernel σ) (g : Globals) (w : σ) (frame0 : can_frame)
    (id : Int) (payload : List uint8_t) (len : Nat) :
    (Send.loop k g (Send.init w frame0 id payload len)).nbytes
      = int_of_long (Send k g w frame0 id payload len).rets.sum := by
  rw [SendResult.rets, Send_writes]
  refine (Send.loop_rule k g
    (fun st => st.nbytes = int_of_long (st.log.map WriteCall.ret).sum)
    ?_ len (Send.init w frame0 id payload len) rfl (by simp [Send.init, int_of_long])).1
  intro st h0 hP
  simp only [Send.body, List.map_append, List.map_cons, List.map_nil, List.sum_append,
    List.sum_cons, List.sum_nil, add_zero]
  rw [hP, int_of_long_add_left]

/-- A list of integers all equal to `c` sums to `c` times its length. -/
theorem sum_of_all_eq (l : List Int) (c : Int) (h : ∀ x ∈ l, x = c) :
    l.sum = c * l.length := by
  induction l with
  | nil => simp
  | cons a t ih =>
    have ha : a = c := h a (List.mem_cons_self a t)
    have ht : ∀ x ∈ t, x = c := fun x hx => h x (List.mem_cons_of_mem a hx)
    rw [List.sum_cons, ih ht, ha, List.length_cons]
    push_cast
    ring

/-- Threading `write` through a concatenation is threading it through the parts in turn. -/
theorem Kernel.writeAll_append {σ : Type} (k : Kernel σ) (fd : Int) (count : Nat)
    (xs ys : List can_frame) (w : σ) :
    Kernel.writeAll k fd count w (xs ++ ys)
      = ((Kernel.writeAll k fd count w xs).1
            ++ (Kernel.writeAll k fd count (Kernel.writeAll k fd count w xs).2 ys).1,
          (Kernel.writeAll k fd count (Kernel.writeAll k fd count w xs).2 ys).2) := by
  induction xs generalizing w with
  | nil => simp [Kernel.writeAll]
  | cons f fs ih => simp [Kernel.writeAll, ih]

/-- The logged return values and the final world of `Send` are what the kernel produces when
`write(s, &frame, sizeof(struct can_frame))` is called on the logged frames in log order, starting
from the world `Send` was entered in. -/
theorem Send_writes_replay {σ : Type} (k : Kernel σ) (g : Globals) (w : σ) (frame0 : can_frame)
    (id : Int) (payload : List uint8_t) (len : Nat) :
    Kernel.writeAll k g.s k.sizeof_can_frame w (Send k g w frame0 id payload len).frames
      = ((Send k g w frame0 id payload len).rets, (Send k g w frame0 id payload len).world) := by
  have hw : (Send k g w frame0 id payload len).world
      = (Send.loop k g (Send.init w frame0 id payload len)).world := rfl
  rw [SendResult.frames, SendResult.rets, hw, Send_writes]
  refine (Send.loop_rule k g
    (fun st => Kernel.writeAll k g.s k.sizeof_can_frame w (st.log.map WriteCall.frame)
      = (st.log.map WriteCall.ret, st.world))
    ?_ len (Send.init w frame0 id payload len) rfl (by simp [Send.init, Kernel.writeAll])).1
  intro st h0 hP
  simp only [Send.body, List.map_append, List.map_cons, List.map_nil]
  rw [Kernel.writeAll_append, hP]
  simp [Kernel.writeAll]

/-- One loop iteration under the counting kernel is the iteration under `k`, with the counter
advanced by one. -/
theorem Send.body_counting {σ : Type} (k : Kernel σ) (g : Globals) (st : SendState σ) (n : Nat) :
    Send.body (Kernel.counting k) g (st.withCount n) = (Send.body k g st).withCount (n + 1) := rfl

/-- The loop under the counting kernel is the loop under `k`, with the counter advanced by
`(len + 7) / 8`. -/
theorem Send.loop_counting {σ : Type} (k : Kernel σ) (g : Globals) :
    ∀ (m : Nat) (st : SendState σ) (n : Nat), st.len = m →
      Send.loop (Kernel.counting k) g (st.withCount n)
        = (Send.loop k g st).withCount (n + (st.len + 7) / 8) := by
  intro m
  induction m using Nat.strong_induction_on with
  | _ m ih =>
    intro st n hm
    rw [Send.loop]
    conv_rhs => rw [Send.loop]
    by_cases h0 : st.len = 0
    · have h0c : (st.withCount n).len = 0 := h0
      rw [if_pos h0, if_pos h0c, h0]
      rfl
    · have h0c : ¬ (st.withCount n).len = 0 := h0
      rw [if_neg h0, if_neg h0c, Send.body_counting]
      have hlen : (Send.body k g st).len = st.len - (if st.len < 8 then st.len else 8) := rfl
      have hlt : (Send.body k g st).len < m := by
        rw [hlen]
        split <;> omega
      rw [ih _ hlt _ (n + 1) rfl]
      congr 1
      rw [hlen]
      split <;> omega

/-! ## The claims -/

/-- C1: for every payload length `len` and every identifier, whatever the kernel and its `write`
return, `Send` performs exactly `ceil(len / 8)` frame writes: the count is `(len + 7) / 8`, the
least `n` with `len ≤ 8 * n`, and it is `0` for `len = 0`. The logged entries are the kernel's
`write` calls: calling `write(s, &frame, sizeof(struct can_frame))` on the logged frames in order,
from the entry world, gives the logged return values and the world `Send` ends in; and a kernel
that counts its own `write` calls counts `(len + 7) / 8` of them, with the same run otherwise. -/
theorem C1_Send_frame_count {σ : Type} (k : Kernel σ) (g : Globals) (w : σ)
    (frame0 : can_frame) (id : Int) (payload : List uint8_t) (len : Nat) :
    (Send k g w frame0 id payload len).frames.length = (len + 7) / 8
    ∧ (Send k g w frame0 id payload len).writes.length = (len + 7) / 8
    ∧ len ≤ 8 * (Send k g w frame0 id payload len).writes.length
    ∧ 8 * (Send k g w frame0 id payload len).writes.length < len + 8
    ∧ (Send k g w frame0 id payload 0).writes.length = 0
    ∧ Kernel.writeAll k g.s k.sizeof_can_frame w (Send k g w frame0 id payload len).frames
        = ((Send k g w frame0 id payload len).rets, (Send k g w frame0 id payload len).world)
    ∧ (Send (Kernel.counting k) g (w, 0) frame0 id payload len).world.2 = (len + 7) / 8
    ∧ (Send (Kernel.counting k) g (w, 0) frame0 id payload len).world.1
        = (Send k g w frame0 id payload len).world
    ∧ (Send (Kernel.counting k) g (w, 0) frame0 id payload len).writes
        = (Send k g w frame0 id payload len).writes
    ∧ (Send (Kernel.counting k) g (w, 0) frame0 id payload len).ret
        = (Send k g w frame0 id payload len).ret := by
  have h := Send_writes_length k g w frame0 id payload len
  have h0 := Send_writes_length k g w frame0 id payload 0
  have hc : Send.loop (Kernel.counting k) g (Send.init (w, 0) frame0 id payload len)
      = (Send.loop k g (Send.init w frame0 id payload len)).withCount (0 + (len + 7) / 8) :=
    Send.loop_counting k g len (Send.init w frame0 id payload len) 0 rfl
  refine ⟨?_, h, ?_, ?_, ?_, Send_writes_replay k g w frame0 id payload len, ?_, ?_, ?_, ?_⟩
  · simp [SendResult.frames, h]
  · omega
  · omega
  · simpa using h0
  · simp only [Send, hc, SendState.withCount]
    omega
  · simp only [Send, hc, SendState.withCount]
  · simp only [Send, hc, SendState.withCount]
  · simp only [Send, hc, SendState.withCount]

/-- C2: round trip. When the payload has exactly `len` bytes, the meaningful bytes (the first
`can_dlc` bytes of the data field) of the frames written by `Send`, concatenated in write order,
are exactly the payload, of total length `len`. -/
theorem C2_Send_round_trip {σ : Type} (k : Kernel σ) (g : Globals) (w : σ)
    (frame0 : can_frame) (id : Int) (payload : List uint8_t) (len : Nat)
    (hlen : payload.length = len) :
    reassemble (Send k g w frame0 id payload len).frames = payload
    ∧ (reassemble (Send k g w frame0 id payload len).frames).length = len := by
  have h := Send_reassemble_take k g w frame0 id payload len (le_of_eq hlen.symm)
  rw [← hlen, List.take_length] at h
  rw [← hlen]
  exact ⟨h, by rw [h]⟩

theorem C2_Send_round_trip_witness :
    payload9.length = 9
    ∧ reassemble (Send okKernel okGlobals [] zeroFrame 0x7FF payload9 9).frames = payload9
    ∧ (reassemble (Send okKernel okGlobals [] zeroFrame 0x7FF payload9 9).frames).length = 9 :=
  ⟨by decide, C2_Send_round_trip okKernel okGlobals [] zeroFrame 0x7FF payload9 9 (by decide)⟩

/-- C4: the `can_dlc` values of the frames `Send` emits are `8` for each of the `len / 8` full
chunks, followed by `len % 8` when `len` is not a multiple of 8 (so the last frame has `can_dlc`
`len % 8`, or `8` when `len` is a nonzero multiple of 8). For 17 bytes of `0xAA` with identifier
`0x123` the frames have `can_dlc` 8, 8, 1. -/
theorem C4_Send_dlc_sequence {σ : Type} (k : Kernel σ) (g : Globals) (w : σ)
    (frame0 : can_frame) (id : Int) (payload : List uint8_t) (len : Nat) :
    (Send k g w frame0 id payload len).frames.map can_frame.can_dlc
      = List.replicate (len / 8) 8 ++ (if len % 8 = 0 then [] else [len % 8])
    ∧ (Send k g w frame0 0x123 payload17 17).frames.map can_frame.can_dlc = [8, 8, 1] := by
  have h : ∀ (i : Int) (p : List uint8_t) (n : Nat),
      (Send k g w frame0 i p n).frames.map can_frame.can_dlc
        = List.replicate (n / 8) 8 ++ (if n % 8 = 0 then [] else [n % 8]) := by
    intro i p n
    have := Send_writes_dlc k g w frame0 i p n
    simpa [SendResult.frames, Function.comp_def] using this
  refine ⟨h _ _ _, ?_⟩
  rw [h]
  decide

/-- C5: every frame emitted by one call of `Send` carries the same `can_id`, namely the `id`
argument as stored in the `canid_t` field (`id` modulo `2^32`); for a non-negative `id` that is
the number `id` itself. -/
theorem C5_Send_same_can_id {σ : Type} (k : Kernel σ) (g : Globals) (w : σ)
    (frame0 : can_frame) (id : Int) (payload : List uint8_t) (len : Nat) :
    (∀ f ∈ (Send k g w frame0 id payload len).frames, f.can_id = canid_of_int id)
    ∧ (∀ f ∈ (Send k g w frame0 id payload len).frames,
        ∀ f2 ∈ (Send k g w frame0 id payload len).frames, f.can_id = f2.can_id)
    ∧ (0 ≤ id → id < 2 ^ 31 →
        ∀ f ∈ (Send k g w frame0 id payload len).frames, (f.can_id : Int) = id) := by
  have h : ∀ f ∈ (Send k g w frame0 id payload len).frames, f.can_id = canid_of_int id := by
    intro f hf
    simp only [SendResult.frames, List.mem_map] at hf
    obtain ⟨c, hc, rfl⟩ := hf
    exact Send_writes_can_id k g w frame0 id payload len c hc
  refine ⟨h, ?_, ?_⟩
  · intro f hf f2 hf2
    rw [h f hf, h f2 hf2]
  · intro h0 h1 f hf
    rw [h f hf]
    simp only [canid_of_int]
    omega

theorem C5_Send_same_can_id_witness :
    (0 : Int) ≤ 0x123 ∧ (0x123 : Int) < 2 ^ 31
    ∧ ∀ f ∈ (Send okKernel okGlobals [] zeroFrame 0x123 payload17 17).frames,
        (f.can_id : Int) = 0x123 :=
  ⟨by decide, by decide,
    (C5_Send_same_can_id okKernel okGlobals [] zeroFrame 0x123 payload17 17).2.2
      (by decide) (by decide)⟩

/-- C6: for every `len`, every frame emitted by `Send` has `can_dlc ≤ 8`, and the byte count
given to `memcpy` for the 8-byte data buffer (the local `size`) is at most 8. -/
theorem C6_Send_dlc_le_8 {σ : Type} (k : Kernel σ) (g : Globals) (w : σ)
    (frame0 : can_frame) (id : Int) (payload : List uint8_t) (len : Nat) :
    (∀ f ∈ (Send k g w frame0 id payload len).frames, 0 ≤ f.can_dlc ∧ f.can_dlc ≤ 8)
    ∧ (∀ c ∈ (Send k g w frame0 id payload len).writes, c.size ≤ 8) := by
  have h := Send_writes_size k g w frame0 id payload len
  refine ⟨?_, fun c hc => (h c hc).2.1⟩
  intro f hf
  simp only [SendResult.frames, List.mem_map] at hf
  obtain ⟨c, hc, rfl⟩ := hf
  obtain ⟨_, h8, he⟩ := h c hc
  omega

/-- C7: with `len = 0`, `Send` makes no `write` call, leaves the world untouched and returns
`0`, which is not the error value `-1`. -/
theorem C7_Send_empty {σ : Type} (k : Kernel σ) (g : Globals) (w : σ)
    (frame0 : can_frame) (id : Int) (payload : List uint8_t) :
    (Send k g w frame0 id payload 0).writes = []
    ∧ (Send k g w frame0 id payload 0).world = w
    ∧ (Send k g w frame0 id payload 0).ret = 0
    ∧ (Send k g w frame0 id payload 0).ret ≠ -1 := by
  have e : Send.loop k g (Send.init w frame0 id payload 0) = Send.init w frame0 id payload 0 := by
    rw [Send.loop]
    simp [Send.init]
  simp only [Send, e]
  simp [Send.init]

/-- C3 fails as stated: with 17 payload bytes and every `write` succeeding, that is returning the
full `sizeof(struct can_frame) = 16` it was asked to write, `Send` returns 48, not 17. -/
theorem C3_counterexample :
    okKernel.sizeof_can_frame = 16
    ∧ (Send okKernel okGlobals [] zeroFrame 0x123 payload17 17).rets = [16, 16, 16]
    ∧ (Send okKernel okGlobals [] zeroFrame 0x123 payload17 17).ret = 48
    ∧ (Send okKernel okGlobals [] zeroFrame 0x123 payload17 17).ret ≠ 17 := by
  simp [Send, Send.init, Send.loop, Send.body, SendResult.rets, okKernel, scripted, int_of_long]

/-- C3 (amended): when every frame write succeeds, that is returns the full
`sizeof(struct can_frame)` it was asked to write, and the total fits in an `int`, `Send` returns
`sizeof(struct can_frame) * ceil(len / 8)`: the bytes of all frames written, not `len`. -/
theorem C3_Send_ret_all_succeed {σ : Type} (k : Kernel σ) (g : Globals) (w : σ)
    (frame0 : can_frame) (id : Int) (payload : List uint8_t) (len : Nat)
    (hok : ∀ c ∈ (Send k g w frame0 id payload len).writes, c.ret = k.sizeof_can_frame)
    (hfit : k.sizeof_can_frame * ((len + 7) / 8) < 2 ^ 31) :
    (Send k g w frame0 id payload len).ret = k.sizeof_can_frame * ((len + 7) / 8) := by
  have hsum : (Send k g w frame0 id payload len).rets.sum
      = (k.sizeof_can_frame : Int) * ((len + 7) / 8 : Nat) := by
    have := sum_of_all_eq (Send k g w frame0 id payload len).rets k.sizeof_can_frame (by
      intro x hx
      simp only [SendResult.rets, List.mem_map] at hx
      obtain ⟨c, hc, rfl⟩ := hx
      exact hok c hc)
    rw [this, SendResult.rets, List.length_map, Send_writes_length]
  have hfit2 : (k.sizeof_can_frame : Int) * ((len + 7) / 8 : Nat) < 2 ^ 31 := by
    exact_mod_cast hfit
  have hnn : (0 : Int) ≤ (k.sizeof_can_frame : Int) * ((len + 7) / 8 : Nat) := by positivity
  rw [Send_ret, Send_nbytes, hsum, int_of_long_of_fits _ (by omega) hfit2]
  rw [if_neg (by omega)]
  push_cast
  rfl

theorem C3_Send_ret_all_succeed_witness :
    (∀ c ∈ (Send okKernel okGlobals [] zeroFrame 0x123 payload17 17).writes,
        c.ret = okKernel.sizeof_can_frame)
    ∧ okKernel.sizeof_can_frame * ((17 + 7) / 8) < 2 ^ 31
    ∧ (Send okKernel okGlobals [] zeroFrame 0x123 payload17 17).ret
        = okKernel.sizeof_can_frame * ((17 + 7) / 8) :=
  ⟨by simp [Send, Send.init, Send.loop, Send.body, okKernel, scripted, int_of_long],
    by decide,
    C3_Send_ret_all_succeed okKernel okGlobals [] zeroFrame 0x123 payload17 17
      (by simp [Send, Send.init, Send.loop, Send.body, okKernel, scripted, int_of_long])
      (by decide)⟩

/-- C8 is violated by `Send`: on a 17-byte payload (three chunks) whose second `write` fails
with `-1` while the other two return 16, `Send` does not stop at the failure. It makes all three
`write` calls (the three scripted return values are all consumed) and returns 31, the sum, so the
check `nbytes < 0` after the loop does not report the failed write. -/
theorem C8_Send_failed_write_not_reported :
    (Send okKernel okGlobals [16, -1, 16] zeroFrame 0x123 payload17 17).rets = [16, -1, 16]
    ∧ (Send okKernel okGlobals [16, -1, 16] zeroFrame 0x123 payload17 17).writes.length = 3
    ∧ (Send okKernel okGlobals [16, -1, 16] zeroFrame 0x123 payload17 17).world = []
    ∧ (Send (Kernel.counting okKernel) okGlobals ([16, -1, 16], 0) zeroFrame 0x123
          payload17 17).world.2 = 3
    ∧ (Send okKernel okGlobals [16, -1, 16] zeroFrame 0x123 payload17 17).ret = 31
    ∧ (Send okKernel okGlobals [16, -1, 16] zeroFrame 0x123 payload17 17).ret ≠ -1 := by
  simp [Send, Send.init, Send.loop, Send.body, SendResult.rets, Kernel.counting, okKernel,
    scripted, int_of_long]

/-- C9 is violated by `InitCan`: when the socket is created (descriptor 3), the interface lookup
`ioctl(s, SIOCGIFINDEX, &ifr)` fails with `-1` and the following `bind` returns `0`, `InitCan`
returns the success value `1`. -/
theorem C9_InitCan_lookup_failure_returns_success :
    (lookupFailKernel.socket []).1 = 3
    ∧ (lookupFailKernel.ioctl_SIOCGIFINDEX [] 3 "nocan0" 0).1.1 = -1
    ∧ (lookupFailKernel.bind [] 3 0).1 = 0
    ∧ (InitCan lookupFailKernel [] { s := 0, ifindex := 0 } 0 "nocan0").ret = 1 := by
  simp [InitCan, lookupFailKernel, scripted]

/-- C10: the result of `Send` depends on the `write` return values only through their sum,
examined once after the loop: with one return value per chunk (`ceil(len / 8)` of them), `Send`
returns the sum reduced to `int` when that is non-negative, and `-1` when it is negative. So on
a 9-byte payload whose first `write` fails with `-1` and whose second succeeds with 16, `Send`
returns 15, not the error value. -/
theorem C10_Send_ret_is_clamped_sum {σ : Type} (k : Kernel σ) (g : Globals) (w : σ)
    (frame0 : can_frame) (id : Int) (payload : List uint8_t) (len : Nat) :
    (Send k g w frame0 id payload len).rets.length = (len + 7) / 8
    ∧ (Send k g w frame0 id payload len).ret
        = (if int_of_long (Send k g w frame0 id payload len).rets.sum < 0 then -1
           else int_of_long (Send k g w frame0 id payload len).rets.sum)
    ∧ (Send okKernel okGlobals [-1, 16] zeroFrame id payload9 9).rets = [-1, 16]
    ∧ (Send okKernel okGlobals [-1, 16] zeroFrame id payload9 9).ret = 15 := by
  refine ⟨?_, ?_, ?_, ?_⟩
  · rw [SendResult.rets, List.length_map, Send_writes_length]
  · rw [Send_ret, Send_nbytes]
  · simp [Send, Send.init, Send.loop, Send.body, SendResult.rets, okKernel, scripted]
  · simp [Send, Send.init, Send.loop, Send.body, okKernel, scripted, int_of_long]

end Scarlet
